import Mathlib

set_option autoImplicit false

/-!
Verification development for the bun-repl Remote Evaluation Protocol Engine
(source: src/repl.ts). The definitions below are shallow embeddings of the
corresponding functions of the source file; stateful pieces (the WebSocket
request table) are modelled by explicit state passing.
-/

namespace BunRepl

/-- The `extraOut` object threaded through `REPLServer.eval` and read by the
driver in `start` (src/repl.ts line 490/590): `errored` and `noPrintError`
(the latter is called `suppressErrorPrint` in the specification). -/
structure OutFlags where
  errored : Bool
  noPrintError : Bool
  deriving DecidableEq

namespace Rpc

/-! RPC correlation layer: `REPLServer.request` and `REPLServer.onmessage`
(src/repl.ts lines 137-151 and 308-315).  The private fields `#reqID` and
`#pendingReqs` become an explicit `RState`; the promise callback pair stored
in the table is an abstract value of type `σ`, and completing it is modelled
by emitting a `Completion` event. -/

universe u v w

/-- A decoded inbound frame `{id, result?, error?}` as seen by `onmessage`
after `JSON.parse`.  Presence of the `result` / `error` members is modelled
with `Option`. -/
structure Frame (Res : Type u) (Err : Type v) where
  id : Nat
  result : Option Res
  error : Option Err
  deriving DecidableEq

/-- How a pending request was completed: `promiseRef.resolve(data.result)`
or `promiseRef.reject(data.error)`. -/
inductive Outcome (Res : Type u) (Err : Type v) where
  | resolved (r : Res)
  | rejected (e : Err)
  deriving DecidableEq

/-- A completion event: which registered callback pair was completed and how. -/
structure Completion (σ : Type w) (Res : Type u) (Err : Type v) where
  callback : σ
  outcome : Outcome Res Err
  deriving DecidableEq

/-- The connection state: `#reqID` (incrementing current request ID) and
`#pendingReqs` (map from request id to the stored promise callbacks).  The
JS `Map` is modelled as an association list whose keys are kept duplicate
free by the `WF` invariant. -/
structure RState (σ : Type w) where
  reqID : Nat
  pendingReqs : List (Nat × σ)
  deriving DecidableEq

/-- Result of processing one inbound frame: the new state, the completion
event (if any), and whether the handler logged an error via `console.error`
(the catch branch of `onmessage`). -/
structure Step (σ : Type w) (Res : Type u) (Err : Type v) where
  state : RState σ
  completed : Option (Completion σ Res Err)
  loggedError : Bool
  deriving DecidableEq

/-- `REPLServer.onmessage` (src/repl.ts lines 137-151) for an already decoded
frame.  Note the source order: the table entry is deleted as soon as a
matching id is found, *before* checking for `error` / `result`; a frame with
neither makes the handler throw, which is caught and logged by the
surrounding try/catch (totality of this function models "never raises"). -/
def onmessage {σ : Type w} {Res : Type u} {Err : Type v}
    (s : RState σ) (f : Frame Res Err) : Step σ Res Err :=
  match s.pendingReqs.lookup f.id with
  | some cb =>
    let s' : RState σ := { s with pendingReqs := s.pendingReqs.filter (fun p => p.1 != f.id) }
    match f.error with
    | some e => ⟨s', some ⟨cb, .rejected e⟩, false⟩
    | none =>
      match f.result with
      | some r => ⟨s', some ⟨cb, .resolved r⟩, false⟩
      | none => ⟨s', none, true⟩
  | none => ⟨s, none, true⟩

/-- `REPLServer.request` (src/repl.ts lines 308-315): allocate
`++this.#reqID`, record the callbacks under the new id, send the frame.
Returns the new state and the allocated id.  (Insertion position in the
association list is irrelevant for lookups under the `WF` invariant.) -/
def request {σ : Type w} (s : RState σ) (cb : σ) : RState σ × Nat :=
  let nextId := s.reqID + 1
  ({ reqID := nextId, pendingReqs := (nextId, cb) :: s.pendingReqs }, nextId)

/-- State invariant maintained by the correlation layer: pending ids are
duplicate free (JS `Map` keys are unique) and never exceed the id counter. -/
def WF {σ : Type w} (s : RState σ) : Prop :=
  (s.pendingReqs.map Prod.fst).Nodup ∧ ∀ p ∈ s.pendingReqs, p.1 ≤ s.reqID

theorem lookup_eq_none_of_forall {σ : Type w} (l : List (Nat × σ)) (k : Nat)
    (h : ∀ p ∈ l, p.1 ≠ k) : l.lookup k = none := by
  induction l with
  | nil => rfl
  | cons hd tl ih =>
    rw [List.lookup_cons]
    have hne : hd.1 ≠ k := h hd (List.mem_cons_self hd tl)
    have : (k == hd.1) = false := by
      simp only [beq_eq_false_iff_ne]
      exact fun hk => hne hk.symm
    simp only [this]
    exact ih (fun p hp => h p (List.mem_cons_of_mem hd hp))

theorem lookup_filter_ne {σ : Type w} (l : List (Nat × σ)) (k m : Nat) (hne : m ≠ k) :
    (l.filter (fun p => p.1 != k)).lookup m = l.lookup m := by
  induction l with
  | nil => rfl
  | cons hd tl ih =>
    obtain ⟨a, b⟩ := hd
    by_cases hk : a = k
    · have h2 : (m == a) = false := by
        simp only [beq_eq_false_iff_ne]
        exact fun hm => hne (hm.trans hk)
      have h3 : (m == k) = false := by simpa using hne
      simp [List.filter_cons, List.lookup_cons, hk, h2, h3, ih]
    · by_cases hm : m = a
      · simp [List.filter_cons, List.lookup_cons, hk, hm]
      · have h2 : (m == a) = false := by simpa using hm
        simp [List.filter_cons, List.lookup_cons, hk, h2, ih]

theorem lookup_filter_self {σ : Type w} (l : List (Nat × σ)) (k : Nat) :
    (l.filter (fun p => p.1 != k)).lookup k = none := by
  apply lookup_eq_none_of_forall
  intro p hp
  have := List.of_mem_filter hp
  simpa using this

/-- The state reached by `onmessage` either is the old one or has the
matching id filtered out of the table; the id counter never changes. -/
theorem onmessage_state_cases {σ : Type w} {Res : Type u} {Err : Type v}
    (s : RState σ) (f : Frame Res Err) :
    ((onmessage s f).state.pendingReqs = s.pendingReqs ∨
      (onmessage s f).state.pendingReqs = s.pendingReqs.filter (fun p => p.1 != f.id)) ∧
    (onmessage s f).state.reqID = s.reqID := by
  unfold onmessage
  rcases hl : s.pendingReqs.lookup f.id with _ | cb
  · exact ⟨Or.inl rfl, rfl⟩
  · rcases f.error with _ | e
    · rcases f.result with _ | r
      · exact ⟨Or.inr rfl, rfl⟩
      · exact ⟨Or.inr rfl, rfl⟩
    · exact ⟨Or.inr rfl, rfl⟩

/-- C1: an inbound reply frame carrying id `n` completes exactly the pending
call registered with id `n` — resolving it with the frame's result on success
or rejecting it with the frame's error on failure (the source checks `error`
first) — removes that entry from the table, and leaves every other pending
entry untouched.  The state is arbitrary, so the property holds regardless
of the order replies arrive in relative to the order requests were sent. -/
theorem reply_completes_exactly_matching {σ : Type w} {Res : Type u} {Err : Type v}
    (s : RState σ) (f : Frame Res Err) (cb : σ)
    (hlook : s.pendingReqs.lookup f.id = some cb) :
    (∀ e, f.error = some e → (onmessage s f).completed = some ⟨cb, .rejected e⟩) ∧
    (f.error = none → ∀ r, f.result = some r →
      (onmessage s f).completed = some ⟨cb, .resolved r⟩) ∧
    (onmessage s f).state.pendingReqs.lookup f.id = none ∧
    (∀ m, m ≠ f.id → (onmessage s f).state.pendingReqs.lookup m = s.pendingReqs.lookup m) ∧
    (∀ c, (onmessage s f).completed = some c → c.callback = cb) := by
  unfold onmessage
  rw [hlook]
  rcases he : f.error with _ | e
  · rcases hr : f.result with _ | r
    · refine ⟨by simp, by simp [hr], lookup_filter_self _ _,
        fun m hm => lookup_filter_ne _ _ _ hm, by simp⟩
    · refine ⟨by simp, ?_, lookup_filter_self _ _,
        fun m hm => lookup_filter_ne _ _ _ hm, ?_⟩
      · intro _ r' hr'
        cases hr'
        rfl
      · intro c hc
        cases hc
        rfl
  · refine ⟨?_, by simp, lookup_filter_self _ _,
      fun m hm => lookup_filter_ne _ _ _ hm, ?_⟩
    · intro e' he'
      cases he'
      rfl
    · intro c hc
      cases hc
      rfl

/-- C1 witness: two calls in flight, the reply for id 1 resolves exactly the
callbacks registered under 1 and leaves id 2 pending. -/
theorem reply_completes_exactly_matching_witness :
    (onmessage (⟨2, [(2, 7), (1, 5)]⟩ : RState Nat)
        (⟨1, some 42, none⟩ : Frame Nat String)).completed = some ⟨5, .resolved 42⟩ ∧
    (onmessage (⟨2, [(2, 7), (1, 5)]⟩ : RState Nat)
        (⟨1, some 42, none⟩ : Frame Nat String)).state.pendingReqs.lookup 2 =
      ([(2, 7), (1, 5)] : List (Nat × Nat)).lookup 2 := by
  have h := reply_completes_exactly_matching (⟨2, [(2, 7), (1, 5)]⟩ : RState Nat)
    (⟨1, some 42, none⟩ : Frame Nat String) 5 (by decide)
  exact ⟨h.2.1 rfl 42 rfl, h.2.2.2.1 2 (by decide)⟩

/-- C2 counterexample: the claim says a pending entry whose id matches a frame
with neither result nor error *stays in the table*.  In the source the entry
is deleted (`MapDelete`) before the result/error check, so it is gone: for the
state with pending id 1 and the frame `{id: 1}` the table ends up empty (and
nothing is completed; the handler logs instead of raising). -/
theorem malformed_matching_frame_removes_entry_cex :
    (onmessage (⟨5, [(1, 42)]⟩ : RState Nat) (⟨1, none, none⟩ : Frame Unit Unit)).state.pendingReqs
        = [] ∧
    (onmessage (⟨5, [(1, 42)]⟩ : RState Nat) (⟨1, none, none⟩ : Frame Unit Unit)).completed
        = none ∧
    (onmessage (⟨5, [(1, 42)]⟩ : RState Nat) (⟨1, none, none⟩ : Frame Unit Unit)).loggedError
        = true := by
  decide

/-- C2 (amended): a frame that is not a well-formed matching reply never
raises (`onmessage` is total; the `throw` is caught and logged), completes no
pending call, and leaves every entry with a *different* id untouched.  A frame
whose id matches no entry leaves the state entirely unchanged; but a frame
whose id matches an entry while carrying neither result nor error *removes*
that entry from the table without completing it (the deletion happens before
the result/error check). -/
theorem malformed_or_unmatched_frame_safe {σ : Type w} {Res : Type u} {Err : Type v}
    (s : RState σ) (f : Frame Res Err) :
    (s.pendingReqs.lookup f.id = none → onmessage s f = ⟨s, none, true⟩) ∧
    (∀ cb, s.pendingReqs.lookup f.id = some cb → f.error = none → f.result = none →
      (onmessage s f).completed = none ∧
      (onmessage s f).loggedError = true ∧
      (onmessage s f).state.pendingReqs.lookup f.id = none ∧
      (∀ m, m ≠ f.id → (onmessage s f).state.pendingReqs.lookup m = s.pendingReqs.lookup m)) := by
  constructor
  · intro hnone
    unfold onmessage
    rw [hnone]
  · intro cb hsome herr hres
    unfold onmessage
    rw [hsome, herr, hres]
    exact ⟨rfl, rfl, lookup_filter_self _ _, fun m hm => lookup_filter_ne _ _ _ hm⟩

/-- C2 witness: a frame for an unknown id leaves the state unchanged and is
only logged. -/
theorem malformed_or_unmatched_frame_safe_witness :
    onmessage (⟨3, [(2, 9)]⟩ : RState Nat) (⟨7, none, none⟩ : Frame Unit Unit) =
      ⟨⟨3, [(2, 9)]⟩, none, true⟩ :=
  (malformed_or_unmatched_frame_safe (⟨3, [(2, 9)]⟩ : RState Nat)
    (⟨7, none, none⟩ : Frame Unit Unit)).1 (by decide)

/-- C9: request ids are allocated by a monotonic increment, so successive
`request` calls return strictly increasing ids; under the table invariant a
newly allocated id is never already pending (no collision, hence at most one
pending request per id); `request` preserves the invariant, and so does
processing any inbound frame (which only ever removes entries). -/
theorem request_ids_monotonic_fresh {σ : Type w} {Res : Type u} {Err : Type v}
    (s : RState σ) (cb cb' : σ) (f : Frame Res Err) (h : WF s) :
    (request s cb).2 < (request (request s cb).1 cb').2 ∧
    s.pendingReqs.lookup (request s cb).2 = none ∧
    WF (request s cb).1 ∧
    WF (onmessage s f).state := by
  obtain ⟨hnodup, hbound⟩ := h
  refine ⟨by simp [request], ?_, ?_, ?_⟩
  · exact lookup_eq_none_of_forall _ _ (fun p hp => by
      have := hbound p hp
      simp only [request]
      omega)
  · refine ⟨?_, ?_⟩
    · simp only [request, List.map_cons, List.nodup_cons]
      refine ⟨fun hmem => ?_, hnodup⟩
      obtain ⟨p, hp, hfst⟩ := List.mem_map.mp hmem
      have := hbound p hp
      omega
    · intro p hp
      simp only [request, List.mem_cons] at hp ⊢
      rcases hp with hp | hp
      · simp [hp]
      · have := hbound p hp
        omega
  · obtain ⟨hcase, hid⟩ := onmessage_state_cases s f
    rcases hcase with hc | hc
    · refine ⟨?_, ?_⟩
      · rw [hc]
        exact hnodup
      · intro p hp
        rw [hc] at hp
        rw [hid]
        exact hbound p hp
    · refine ⟨?_, ?_⟩
      · rw [hc]
        exact hnodup.sublist ((List.filter_sublist _).map Prod.fst)
      · intro p hp
        rw [hc] at hp
        rw [hid]
        exact hbound p (List.mem_of_mem_filter hp)

/-- C9 witness: from the initial state (`#reqID = 0`, empty table) two
requests get ids 1 and 2 and the invariant is preserved. -/
theorem request_ids_monotonic_fresh_witness :
    (request (⟨0, []⟩ : RState Nat) 5).2 < (request (request (⟨0, []⟩ : RState Nat) 5).1 6).2 ∧
    WF (request (⟨0, []⟩ : RState Nat) 5).1 := by
  have h := request_ids_monotonic_fresh (⟨0, []⟩ : RState Nat) 5 6
    (⟨1, none, none⟩ : Frame Unit Unit) (by constructor <;> simp [WF])
  exact ⟨h.1, h.2.2.1⟩

end Rpc

namespace Driver

/-! The driver's print decision in `start` (src/repl.ts): the single-shot
branch (lines 490-496) and the interactive line handler (lines 590-595).
Both receive the evaluated text and the `extraInfo` flags object back from
`REPLServer.eval` and route the text to standard output, standard error, or
nowhere. -/

/-- Where (and whether) the driver prints the evaluated text. -/
inductive PrintAction where
  | stdout (text : String)
  | stderr (text : String)
  | silent
  deriving DecidableEq

/-- The interactive line handler's print decision (src/repl.ts lines 592-595):
`if (!noPrintError) { errored ? console.error : console.log } else if
(!errored) console.log`. -/
def interactivePrint (f : OutFlags) (evaled : String) : PrintAction :=
  if !f.noPrintError then
    if f.errored then .stderr evaled else .stdout evaled
  else if !f.errored then .stdout evaled else .silent

/-- The single-shot branch's print decision (src/repl.ts lines 492-495); the
extra `printSingleshot` flag gates printing to standard output. -/
def singleshotPrint (f : OutFlags) (printSingleshot : Bool) (evaled : String) : PrintAction :=
  if !f.noPrintError then
    if f.errored then .stderr evaled
    else if printSingleshot then .stdout evaled else .silent
  else if !f.errored && printSingleshot then .stdout evaled else .silent

/-- C3 counterexample: the claim says the driver never prints the text when
`suppressErrorPrint` (`noPrintError`) is set together with no error.  In the
source this combination *does* print to standard output, both interactively
and (when printing was requested) in single-shot mode; suppression only
silences the errored case. -/
theorem suppressed_unerrored_still_prints_cex :
    interactivePrint ⟨false, true⟩ "p" = .stdout "p" ∧
    singleshotPrint ⟨false, true⟩ true "p" = .stdout "p" := by
  constructor <;> rfl

/-- C3 (amended): the driver prints to standard output or standard error,
never both, and never when `suppressErrorPrint` is set together with an
*error*.  Interactively, a non-errored result is printed to standard output
even when `suppressErrorPrint` is set; in single-shot mode the text goes to
standard output exactly when not errored and printing was requested
(regardless of `suppressErrorPrint`), while an errored, non-suppressed result
goes to standard error regardless of the print-request flag. -/
theorem print_routing (f : OutFlags) (p : Bool) (evaled : String) :
    (interactivePrint f evaled = .silent ↔ f.errored = true ∧ f.noPrintError = true) ∧
    (interactivePrint f evaled = .stderr evaled ↔ f.errored = true ∧ f.noPrintError = false) ∧
    (interactivePrint f evaled = .stdout evaled ↔ f.errored = false) ∧
    (singleshotPrint f p evaled = .stdout evaled ↔ f.errored = false ∧ p = true) ∧
    (singleshotPrint f p evaled = .stderr evaled ↔ f.errored = true ∧ f.noPrintError = false) ∧
    (singleshotPrint f p evaled = .silent ↔
      (f.errored = true ∧ f.noPrintError = true) ∨ (f.errored = false ∧ p = false)) := by
  obtain ⟨e, n⟩ := f
  cases e <;> cases n <;> cases p <;>
    simp [interactivePrint, singleshotPrint]

end Driver

namespace Inspect

/-! The inspection fallback chain `SafeInspect` (src/repl.ts lines 20-46).
The host inspectors (`utl.inspect`, Bun's native `inspect`) and the string
coercion `val + ''` are external collaborators; they are passed in as
arbitrary functions that may either return a value or throw. -/

universe u

/-- Result of calling a host function that may throw. -/
inductive JSRes (α : Type u) where
  | ok (val : α)
  | thrown
  deriving DecidableEq

/-- The `depth` member of the inspect options object: absent, `null`, a
number, or `Infinity`. -/
inductive JSDepth where
  | undef
  | nullV
  | num (n : Int)
  | infinity
  deriving DecidableEq

/-- The `sorted` member of the inspect options object: absent, a boolean, or
a comparison function. -/
inductive JSSorted where
  | undef
  | bool (b : Bool)
  | func
  deriving DecidableEq

/-- The slice of the options object that `SafeInspect` itself reads or
mutates before handing the object on. -/
structure InspectOptions where
  depth : JSDepth := .undef
  sorted : JSSorted := .undef
  deriving DecidableEq

/-- The option adjustments applied before falling back to Bun's native
inspect: `if (opts.depth === null) opts.depth = Infinity;` and
`if (typeof opts.sorted === 'function') opts.sorted = true;`. -/
def adjustOpts (o : InspectOptions) : InspectOptions :=
  let o := match o.depth with
    | .nullV => { o with depth := .infinity }
    | _ => o
  match o.sorted with
  | .func => { o with sorted := .bool true }
  | _ => o

/-- A JS value as far as the coercion check `typeof str === 'string'` is
concerned: a string or anything else. -/
inductive JSVal where
  | str (s : String)
  | other
  deriving DecidableEq

/-- `SafeInspect` (src/repl.ts lines 20-46): try `utl.inspect`; on throw
adjust the options and try Bun's native inspect; on throw warn and coerce
`val + ''`, keeping the result only if it is a string; if even the coercion
throws (e.g. a null-prototype object), return the empty string.  The
function is total — it returns a string for every input and every behavior
of the three host collaborators, which is the formal content of "never
raises". -/
def SafeInspect {Val : Type u}
    (utlInspect : Val → InspectOptions → JSRes String)
    (bunInspect : Val → InspectOptions → JSRes String)
    (coerce : Val → JSRes JSVal)
    (val : Val) (opts : InspectOptions) : String :=
  match utlInspect val opts with
  | .ok s => s
  | .thrown =>
    match bunInspect val (adjustOpts opts) with
    | .ok s => s
    | .thrown =>
      match coerce val with
      | .ok (.str s) => s
      | .ok .other => ""
      | .thrown => ""

/-- C8: `SafeInspect` never raises and degrades strictly: the primary
inspector's answer wins; on its failure the secondary inspector (with the
adjusted options) wins; on its failure the string coercion's answer is used
if it is a string; a non-string coercion result or a throwing coercion (as
for a null-prototype object) yields the empty string.  The four cases cover
every possible behavior of the host collaborators, so a string is returned
under all inputs. -/
theorem safeInspect_never_raises {Val : Type u}
    (utlInspect bunInspect : Val → InspectOptions → JSRes String)
    (coerce : Val → JSRes JSVal) (val : Val) (opts : InspectOptions) :
    (∀ s, utlInspect val opts = .ok s →
      SafeInspect utlInspect bunInspect coerce val opts = s) ∧
    (utlInspect val opts = .thrown → ∀ s, bunInspect val (adjustOpts opts) = .ok s →
      SafeInspect utlInspect bunInspect coerce val opts = s) ∧
    (utlInspect val opts = .thrown → bunInspect val (adjustOpts opts) = .thrown →
      ∀ s, coerce val = .ok (.str s) →
        SafeInspect utlInspect bunInspect coerce val opts = s) ∧
    (utlInspect val opts = .thrown → bunInspect val (adjustOpts opts) = .thrown →
      (coerce val = .ok .other ∨ coerce val = .thrown) →
        SafeInspect utlInspect bunInspect coerce val opts = "") := by
  refine ⟨fun s hu => by simp [SafeInspect, hu], fun hu s hb => by simp [SafeInspect, hu, hb],
    fun hu hb s hc => by simp [SafeInspect, hu, hb, hc], fun hu hb hc => ?_⟩
  rcases hc with hc | hc <;> simp [SafeInspect, hu, hb, hc]

/-- C8 witness: with every host collaborator throwing, `SafeInspect` still
returns (the empty string) — the absolute floor of the chain. -/
theorem safeInspect_never_raises_witness :
    SafeInspect (fun (_ : Unit) _ => .thrown) (fun _ _ => .thrown) (fun _ => .thrown)
      () ⟨.nullV, .func⟩ = "" :=
  (safeInspect_never_raises (fun (_ : Unit) _ => .thrown) (fun _ _ => .thrown)
    (fun _ => .thrown) () ⟨.nullV, .func⟩).2.2.2 rfl rfl (Or.inr rfl)

end Inspect

namespace Eval

/-! The evaluation state machine `REPLServer.eval` (src/repl.ts lines
324-396).  The remote endpoint's replies (to `Runtime.evaluate`,
`Runtime.awaitPromise` and `Runtime.callFunctionOn`) are inputs of the model;
which of those calls are actually issued is recorded in a call log. -/

/-- `RemoteObject.type` tags (the `type` member of a JSC RemoteObject). -/
inductive RType where
  | string | number | bigint | boolean | symbol | undefined | object | function
  deriving DecidableEq

/-- `RemoteObject.subtype` tags.  The `class` subtype is spelled `klass`. -/
inductive RSubtype where
  | array | «map» | set | weakmap | weakset | iterator | error | null
  | date | regexp | klass | proxy | weakref
  deriving DecidableEq

/-- One entry of `preview.properties`. -/
structure PreviewProp where
  name : String
  value : Option String
  deriving DecidableEq

/-- An object preview: `properties` is itself optional in the protocol. -/
structure Preview where
  properties : Option (List PreviewProp)
  deriving DecidableEq

/-- The slice of a JSC `Runtime.RemoteObject` that `REPLServer.eval` reads.
`value` carries the string payload of `type == "string"` results (the only
place the code reads `.value`). -/
structure RemoteObject where
  type : RType
  subtype : Option RSubtype := none
  objectId : Option String := none
  className : Option String := none
  description : Option String := none
  preview : Option Preview := none
  value : Option String := none
  deriving DecidableEq

/-- The `EvalError`s thrown by `eval` on protocol-consistency failures, plus
the host `SyntaxError` a malformed `BigInt` description would raise. -/
inductive EvalErr where
  | missingObjectId
  | missingPreview
  | missingDescription
  | bigintParse
  | inspectFailed
  | nonStringInspect
  deriving DecidableEq

/-- The additional inspector requests `eval` can issue after the initial
`Runtime.evaluate`. -/
inductive CallKind where
  | awaitPromise
  | callFunctionOn
  deriving DecidableEq

/-- A value stored into a REPL global binding by the local (bigint) path. -/
inductive Binding where
  | bigintVal (v : Int)
  deriving DecidableEq

/-- The REPL globals `_` and `_error` as far as the local path writes them.
(The render path stores `_` / `_error` from inside the remotely executed
function, outside the locally modelled effects.) -/
structure GlobalState where
  underscore : Option Binding := none
  underscoreError : Option Binding := none
  deriving DecidableEq

/-- All remote replies an `eval` run can consume: the `Runtime.evaluate`
reply, the `Runtime.awaitPromise` reply (consumed only when the conditional
await fires) and the `Runtime.callFunctionOn` reply (consumed only by the
secondary render step), together with the `topLevelAwaited` argument. -/
structure EvalInputs where
  evalResult : RemoteObject
  evalWasThrown : Bool
  topLevelAwaited : Bool
  awaitResult : RemoteObject
  awaitWasThrown : Bool
  inspectResult : RemoteObject
  inspectWasThrown : Bool
  deriving DecidableEq

deriving instance DecidableEq for Except

/-- What one `eval` run produced: the returned text (or the `EvalError` it
threw), the final state of the caller's `extraOut` object, the final global
bindings, and the log of extra inspector calls issued. -/
structure EvalOutcome where
  ret : Except EvalErr String
  outFlags : Option OutFlags
  glob : GlobalState
  calls : List CallKind
  deriving DecidableEq

/-- The working value after the object-classification block: the (possibly
awaited) remote object, its `wasThrown` / `wasRejectedPromise` marks, and the
calls issued so far. -/
structure Classified where
  obj : RemoteObject
  wasThrown : Bool
  wasRejectedPromise : Bool
  calls : List CallKind
  deriving DecidableEq

/-- `result.preview.properties?.find(p => p.name === 'status')?.value ===
'rejected'` (src/repl.ts line 346). -/
def previewStatusRejected (pv : Preview) : Bool :=
  match pv.properties with
  | some props =>
    match props.find? (fun p => p.name == "status") with
    | some p => p.value == some "rejected"
    | none => false
  | none => false

/-- Models the host `BigInt(string)` constructor on its decimal fragment:
leading/trailing whitespace is ignored, the empty string is `0`, an optional
sign is followed by decimal digits; anything else throws (`none`).  (The
host constructor additionally accepts `0x`/`0o`/`0b` prefixes, which a
bigint `description` — decimal digits plus the `n` suffix — never uses.) -/
def parseBigInt (s : String) : Option Int :=
  let cs := ((s.data.dropWhile Char.isWhitespace).reverse.dropWhile Char.isWhitespace).reverse
  match cs with
  | [] => some 0
  | c :: rest =>
    let signed : Bool × List Char :=
      if c = '-' then (true, rest) else if c = '+' then (false, rest) else (false, cs)
    if signed.2 ≠ [] ∧ signed.2.all Char.isDigit then
      let magnitude : Nat := signed.2.foldl (fun n d => n * 10 + (d.toNat - 48)) 0
      some (if signed.1 then -(magnitude : Int) else (magnitude : Int))
    else none

/-- `description.slice(0, -1)`: the description minus its trailing
type-suffix character. -/
def dropTypeSuffix (s : String) : String :=
  String.mk s.data.dropLast

/-- The "Uncaught " marker prefixed to thrown results.  Modelled from the
spec: the surrounding ANSI color escapes come from the colors module, which
is outside the modelled core. -/
def uncaughtMarker : String := "Uncaught "

/-- The object-classification block of `eval` (src/repl.ts lines 330-351):
null objects skip ahead; a non-null object must carry an `objectId`; a
`Promise` must carry a preview, is conditionally awaited (replacing the
working value and its `wasThrown` with the `Runtime.awaitPromise` reply),
and has its preview scanned for a rejected status. -/
def classify (inp : EvalInputs) : Except EvalErr Classified :=
  if inp.evalResult.type = .object then
    if inp.evalResult.subtype = some .null then
      .ok ⟨inp.evalResult, inp.evalWasThrown, false, []⟩
    else if inp.evalResult.objectId = none then
      .error .missingObjectId
    else if inp.evalResult.className = some "Promise" then
      match inp.evalResult.preview with
      | none => .error .missingPreview
      | some pv =>
        if inp.topLevelAwaited then
          .ok ⟨inp.awaitResult, inp.awaitWasThrown, previewStatusRejected pv, [.awaitPromise]⟩
        else
          .ok ⟨inp.evalResult, inp.evalWasThrown, previewStatusRejected pv, []⟩
    else
      .ok ⟨inp.evalResult, inp.evalWasThrown, false, []⟩
  else
    .ok ⟨inp.evalResult, inp.evalWasThrown, false, []⟩

/-- `REPLServer.eval` (src/repl.ts lines 324-396) over given remote replies:
classification, the bigint workaround branch (parse the description, store
`_` / `_error`, render locally, return without the secondary call), and the
secondary render via `Runtime.callFunctionOn` with its protocol-consistency
checks, `extraOut` updates, and "Uncaught " prefixing.  `localRender` stands
for the `SafeInspect` call on the parsed bigint with the configured display
options. -/
def evalModel (inp : EvalInputs) (localRender : Int → String)
    (extraOut : Option OutFlags) (glob : GlobalState) : EvalOutcome :=
  match classify inp with
  | .error e => ⟨.error e, extraOut, glob, []⟩
  | .ok c =>
    if c.obj.type = .bigint then
      match c.obj.description with
      | none => ⟨.error .missingDescription, extraOut, glob, c.calls⟩
      | some d =>
        match parseBigInt (dropTypeSuffix d) with
        | none => ⟨.error .bigintParse, extraOut, glob, c.calls⟩
        | some v =>
          let glob' :=
            if c.wasThrown then { glob with underscoreError := some (.bigintVal v) }
            else { glob with underscore := some (.bigintVal v) }
          ⟨.ok ((if c.wasThrown then uncaughtMarker else "") ++ localRender v),
            extraOut, glob', c.calls⟩
    else
      let calls := c.calls ++ [CallKind.callFunctionOn]
      if inp.inspectWasThrown then ⟨.error .inspectFailed, extraOut, glob, calls⟩
      else if inp.inspectResult.type ≠ .string then
        ⟨.error .nonStringInspect, extraOut, glob, calls⟩
      else
        let txt := inp.inspectResult.value.getD "undefined"
        let flags := extraOut.map (fun f =>
          ⟨f.errored || c.wasThrown, f.noPrintError || c.wasRejectedPromise⟩)
        let out :=
          if c.wasThrown ∧ c.obj.subtype ≠ some .error then uncaughtMarker ++ txt else txt
        ⟨.ok out, flags, glob, calls⟩

/-- Whether the conditional await actually fired: the `Runtime.evaluate`
result was a non-null object of class `Promise` and `topLevelAwaited` was
passed. -/
def tookAwaitPath (inp : EvalInputs) : Bool :=
  inp.topLevelAwaited &&
  decide (inp.evalResult.type = RType.object) &&
  !decide (inp.evalResult.subtype = some RSubtype.null) &&
  decide (inp.evalResult.className = some "Promise")

theorem classify_wasThrown (inp : EvalInputs) (c : Classified)
    (h : classify inp = .ok c) :
    c.wasThrown = if tookAwaitPath inp then inp.awaitWasThrown else inp.evalWasThrown := by
  unfold classify at h
  repeat' split at h
  all_goals (try injection h with h2)
  all_goals (try subst h2)
  all_goals simp_all [tookAwaitPath]

theorem classify_calls (inp : EvalInputs) (c : Classified)
    (h : classify inp = .ok c) :
    c.calls = [] ∨ c.calls = [CallKind.awaitPromise] := by
  unfold classify at h
  repeat' split at h
  all_goals (try injection h with h2)
  all_goals (try subst h2)
  all_goals simp_all

/-- C5: for a working value of type `bigint` with a present description,
`eval` parses the description minus its trailing type-suffix character into
an arbitrary-precision integer, stores it into `_` on success / `_error` on
throw, returns the locally rendered text prefixed with the "Uncaught "
marker when thrown, and never issues the secondary `Runtime.callFunctionOn`
render call; a bigint with no description throws the protocol-consistency
`EvalError`. -/
theorem bigint_local_path (inp : EvalInputs) (localRender : Int → String)
    (extraOut : Option OutFlags) (glob : GlobalState) (c : Classified)
    (hc : classify inp = .ok c) (hbig : c.obj.type = .bigint) :
    (∀ d v, c.obj.description = some d → parseBigInt (dropTypeSuffix d) = some v →
      (evalModel inp localRender extraOut glob).ret =
        .ok ((if c.wasThrown then uncaughtMarker else "") ++ localRender v) ∧
      (evalModel inp localRender extraOut glob).glob =
        (if c.wasThrown then { glob with underscoreError := some (.bigintVal v) }
          else { glob with underscore := some (.bigintVal v) })) ∧
    CallKind.callFunctionOn ∉ (evalModel inp localRender extraOut glob).calls ∧
    (c.obj.description = none →
      (evalModel inp localRender extraOut glob).ret = .error .missingDescription) := by
  have hnotin : CallKind.callFunctionOn ∉ c.calls := by
    rcases classify_calls inp c hc with h | h <;> simp [h]
  refine ⟨?_, ?_, ?_⟩
  · intro d v hd hv
    constructor <;> simp [evalModel, hc, hbig, hd, hv]
  · rcases hdesc : c.obj.description with _ | d
    · simpa [evalModel, hc, hbig, hdesc] using hnotin
    · rcases hv : parseBigInt (dropTypeSuffix d) with _ | v <;>
        simpa [evalModel, hc, hbig, hdesc, hv] using hnotin
  · intro hd
    simp [evalModel, hc, hbig, hd]

/-- C5 witness: the spec scenario `{type:"bigint", description:"123n"}`:
the parsed value 123 is stored into the success binding, the locally
rendered text is returned, and no secondary render call is issued. -/
theorem bigint_local_path_witness :
    (evalModel
      { evalResult := { type := .bigint, description := some "123n" },
        evalWasThrown := false, topLevelAwaited := false,
        awaitResult := { type := .undefined }, awaitWasThrown := false,
        inspectResult := { type := .undefined }, inspectWasThrown := false }
      (fun _ => "123") (some ⟨false, false⟩) {}).ret = .ok "123" ∧
    (evalModel
      { evalResult := { type := .bigint, description := some "123n" },
        evalWasThrown := false, topLevelAwaited := false,
        awaitResult := { type := .undefined }, awaitWasThrown := false,
        inspectResult := { type := .undefined }, inspectWasThrown := false }
      (fun _ => "123") (some ⟨false, false⟩) {}).glob =
        { underscore := some (.bigintVal 123) } ∧
    CallKind.callFunctionOn ∉ (evalModel
      { evalResult := { type := .bigint, description := some "123n" },
        evalWasThrown := false, topLevelAwaited := false,
        awaitResult := { type := .undefined }, awaitWasThrown := false,
        inspectResult := { type := .undefined }, inspectWasThrown := false }
      (fun _ => "123") (some ⟨false, false⟩) {}).calls := by
  have h := bigint_local_path
    { evalResult := { type := .bigint, description := some "123n" },
      evalWasThrown := false, topLevelAwaited := false,
      awaitResult := { type := .undefined }, awaitWasThrown := false,
      inspectResult := { type := .undefined }, inspectWasThrown := false }
    (fun _ => "123") (some ⟨false, false⟩) {}
    ⟨{ type := .bigint, description := some "123n" }, false, false, []⟩ (by decide) rfl
  have h1 := h.1 "123n" 123 rfl (by decide)
  exact ⟨h1.1.trans (by decide), h1.2.trans (by decide), h.2.1⟩

/-- C10: for every evaluation whose working value has type `bigint`, `eval`
returns before the Finalize step, so the caller-supplied `extraOut` object
is left entirely unchanged (whether or not the evaluation threw or the value
was a rejected deferred, and whether or not the description was present). -/
theorem bigint_outFlags_unchanged (inp : EvalInputs) (localRender : Int → String)
    (extraOut : Option OutFlags) (glob : GlobalState) (c : Classified)
    (hc : classify inp = .ok c) (hbig : c.obj.type = .bigint) :
    (evalModel inp localRender extraOut glob).outFlags = extraOut := by
  rcases hdesc : c.obj.description with _ | d
  · simp [evalModel, hc, hbig, hdesc]
  · rcases hv : parseBigInt (dropTypeSuffix d) with _ | v <;>
      simp [evalModel, hc, hbig, hdesc, hv]

/-- C10 witness: an awaited rejected deferred that resolves to a thrown
bigint — `wasThrown` and `wasRejectedPromise` are both set on the working
value, yet `extraOut` stays at its initial value; only the returned text
carries the marker. -/
theorem bigint_outFlags_unchanged_witness :
    (evalModel
      { evalResult := { type := .object, objectId := some "1", className := some "Promise",
                        preview := some ⟨some [⟨"status", some "rejected"⟩]⟩ },
        evalWasThrown := false, topLevelAwaited := true,
        awaitResult := { type := .bigint, description := some "5n" }, awaitWasThrown := true,
        inspectResult := { type := .undefined }, inspectWasThrown := false }
      (fun _ => "5") (some ⟨false, false⟩) {}).outFlags = some ⟨false, false⟩ :=
  bigint_outFlags_unchanged
    { evalResult := { type := .object, objectId := some "1", className := some "Promise",
                      preview := some ⟨some [⟨"status", some "rejected"⟩]⟩ },
      evalWasThrown := false, topLevelAwaited := true,
      awaitResult := { type := .bigint, description := some "5n" }, awaitWasThrown := true,
      inspectResult := { type := .undefined }, inspectWasThrown := false }
    (fun _ => "5") (some ⟨false, false⟩) {}
    ⟨{ type := .bigint, description := some "5n" }, true, true, [.awaitPromise]⟩
    (by decide) rfl

/-- C7: on the render path, the returned text is prefixed with the
"Uncaught " marker if and only if the working value's `wasThrown` is set and
its subtype is not `"error"`; when the subtype is `"error"` or nothing was
thrown, the rendered text comes back unprefixed. -/
theorem uncaught_prefix_rule (inp : EvalInputs) (localRender : Int → String)
    (extraOut : Option OutFlags) (glob : GlobalState) (c : Classified)
    (hc : classify inp = .ok c) (hnb : c.obj.type ≠ .bigint)
    (hins : inp.inspectWasThrown = false) (hstr : inp.inspectResult.type = .string) :
    (c.wasThrown = true → c.obj.subtype ≠ some .error →
      (evalModel inp localRender extraOut glob).ret =
        .ok (uncaughtMarker ++ inp.inspectResult.value.getD "undefined")) ∧
    (c.wasThrown = false ∨ c.obj.subtype = some .error →
      (evalModel inp localRender extraOut glob).ret =
        .ok (inp.inspectResult.value.getD "undefined")) := by
  constructor
  · intro hthr hsub
    simp [evalModel, hc, hnb, hins, hstr, hthr, hsub]
  · intro hcase
    rcases hcase with hthr | hsub
    · simp [evalModel, hc, hnb, hins, hstr, hthr]
    · simp [evalModel, hc, hnb, hins, hstr, hsub]

/-- C7 witness: the spec scenario `throw new Error('x')` — the working value
is thrown but has subtype `"error"`, so the rendered text is returned
without the "Uncaught " marker. -/
theorem uncaught_prefix_rule_witness :
    (evalModel
      { evalResult := { type := .object, subtype := some .error, objectId := some "9",
                        className := some "Error" },
        evalWasThrown := true, topLevelAwaited := false,
        awaitResult := { type := .undefined }, awaitWasThrown := false,
        inspectResult := { type := .string, value := some "Error: x" },
        inspectWasThrown := false }
      (fun _ => "") none {}).ret = .ok "Error: x" := by
  have h := (uncaught_prefix_rule
    { evalResult := { type := .object, subtype := some .error, objectId := some "9",
                      className := some "Error" },
      evalWasThrown := true, topLevelAwaited := false,
      awaitResult := { type := .undefined }, awaitWasThrown := false,
      inspectResult := { type := .string, value := some "Error: x" },
      inspectWasThrown := false }
    (fun _ => "") none {}
    ⟨{ type := .object, subtype := some .error, objectId := some "9",
       className := some "Error" }, true, false, []⟩
    (by decide) (by decide) rfl rfl).2 (Or.inr rfl)
  exact h.trans (by decide)

/-- C4 input for the counterexample: the evaluate reply is a pending promise
(`wasThrown` false), the conditional await fires and the `awaitPromise`
reply has `wasThrown` true (the promise rejected after being previewed). -/
def c4inp : EvalInputs :=
  { evalResult := { type := .object, objectId := some "1", className := some "Promise",
                    preview := some ⟨some []⟩ },
    evalWasThrown := false, topLevelAwaited := true,
    awaitResult := { type := .object, objectId := some "2", className := some "Object" },
    awaitWasThrown := true,
    inspectResult := { type := .string, value := some "boom" }, inspectWasThrown := false }

/-- C4 counterexample: the claim says `outFlags.errored` is set to the
`wasThrown` of the *original* evaluate reply even for evaluations that
performed the conditional await.  On `c4inp` the original reply has
`wasThrown = false`, yet the final flags carry `errored = true`: the code
takes `wasThrown` from the working value, which the conditional await
replaced with the `Runtime.awaitPromise` reply's flag. -/
theorem errored_not_from_original_evaluate_cex :
    c4inp.evalWasThrown = false ∧
    (evalModel c4inp (fun _ => "") (some ⟨false, false⟩) {}).outFlags = some ⟨true, false⟩ := by
  constructor
  · rfl
  · decide

/-- C4 (amended): on reaching Finalize, `outFlags.errored` is set from the
*working value's* `wasThrown` — the original evaluate reply's flag unless
the conditional await fired, in which case the `Runtime.awaitPromise`
reply's flag — and `outFlags.suppressErrorPrint` from `wasRejectedPromise`;
the secondary render call's own `wasThrown` never reaches the flags (when it
is set, `eval` throws before Finalize and `extraOut` is untouched). -/
theorem finalize_flags_from_working_value (inp : EvalInputs) (localRender : Int → String)
    (glob : GlobalState) (f : OutFlags) (c : Classified)
    (hc : classify inp = .ok c) (hnb : c.obj.type ≠ .bigint) :
    (inp.inspectWasThrown = false → inp.inspectResult.type = .string →
      (evalModel inp localRender (some f) glob).outFlags =
        some ⟨f.errored || c.wasThrown, f.noPrintError || c.wasRejectedPromise⟩) ∧
    (inp.inspectWasThrown = true →
      (evalModel inp localRender (some f) glob).outFlags = some f) ∧
    c.wasThrown = (if tookAwaitPath inp then inp.awaitWasThrown else inp.evalWasThrown) := by
  refine ⟨?_, ?_, classify_wasThrown inp c hc⟩
  · intro hins hstr
    simp [evalModel, hc, hnb, hins, hstr]
  · intro hins
    simp [evalModel, hc, hnb, hins]

/-- C4 witness: on `c4inp` the finalize step sets `errored` from the awaited
reply's `wasThrown` (true) even though the original evaluate did not throw. -/
theorem finalize_flags_from_working_value_witness :
    (evalModel c4inp (fun _ => "") (some ⟨false, false⟩) {}).outFlags =
      some ⟨false || true, false || false⟩ := by
  have h := (finalize_flags_from_working_value c4inp (fun _ => "") {} ⟨false, false⟩
    ⟨{ type := .object, objectId := some "2", className := some "Object" },
      true, false, [.awaitPromise]⟩
    (by decide) (by decide)).1 rfl rfl
  exact h.trans (by decide)

end Eval

namespace Tla

/-! The top-level-await transform `tryProcessTopLevelAwait` together with
`JSVarDeclRegex` (src/repl.ts lines 428-445).  The host regex engine is
embedded as an explicit matcher for the one regex the source uses,
`/(var|let|const)\s+IDENT/gu` where `IDENT` is
`(?:[$_\p{ID_Start}]|\\u[hex]{4})(?:[$‌‍\p{ID_Continue}]|\\u[hex]{4})*`;
the Unicode character properties `ID_Start` / `ID_Continue` and the `\s`
class are parameters (`idStart`, `idCont`, `isWs`), so every theorem below
holds for the real Unicode classes in particular. -/

/-- The `[\da-fA-F]` class of the identifier escape. -/
def hexDigit (c : Char) : Bool :=
  c.isDigit || ('a' ≤ c && c ≤ 'f') || ('A' ≤ c && c ≤ 'F')

/-- One `\\u[\da-fA-F]{4}` escape unit at the head of the input; returns the
matched characters and the remainder. -/
def matchUEscape : List Char → Option (List Char × List Char)
  | '\\' :: 'u' :: h1 :: h2 :: h3 :: h4 :: rest =>
    if hexDigit h1 && hexDigit h2 && hexDigit h3 && hexDigit h4 then
      some (['\\', 'u', h1, h2, h3, h4], rest)
    else none
  | _ => none

theorem matchUEscape_decomp {cs u rest} (h : matchUEscape cs = some (u, rest)) :
    cs = u ++ rest ∧ u ≠ [] := by
  unfold matchUEscape at h
  split at h
  · split at h
    · cases h
      exact ⟨rfl, by simp⟩
    · exact absurd h (by simp)
  · exact absurd h (by simp)

/-- One unit of the identifier's first position:
`[$_\p{ID_Start}]` or an escape. -/
def matchIdentUnitStart (idStart : Char → Bool) : List Char → Option (List Char × List Char)
  | [] => none
  | c :: rest =>
    if c = '$' ∨ c = '_' ∨ idStart c = true then some ([c], rest)
    else matchUEscape (c :: rest)

/-- One unit of an identifier continuation position:
`[$ ZWNJ ZWJ \p{ID_Continue}]` (the two zero-width joiners spelled as characters) or an escape. -/
def matchIdentUnitCont (idCont : Char → Bool) : List Char → Option (List Char × List Char)
  | [] => none
  | c :: rest =>
    if c = '$' ∨ c = '\u200C' ∨ c = '\u200D' ∨ idCont c = true then some ([c], rest)
    else matchUEscape (c :: rest)

theorem matchIdentUnitStart_decomp {idStart : Char → Bool} {cs u rest}
    (h : matchIdentUnitStart idStart cs = some (u, rest)) :
    cs = u ++ rest ∧ u ≠ [] := by
  cases cs with
  | nil => exact absurd h (by simp [matchIdentUnitStart])
  | cons c tail =>
    simp only [matchIdentUnitStart] at h
    by_cases hc : c = '$' ∨ c = '_' ∨ idStart c = true
    · rw [if_pos hc] at h
      cases h
      exact ⟨rfl, by simp⟩
    · rw [if_neg hc] at h
      exact matchUEscape_decomp h

theorem matchIdentUnitCont_decomp {idCont : Char → Bool} {cs u rest}
    (h : matchIdentUnitCont idCont cs = some (u, rest)) :
    cs = u ++ rest ∧ u ≠ [] := by
  cases cs with
  | nil => exact absurd h (by simp [matchIdentUnitCont])
  | cons c tail =>
    simp only [matchIdentUnitCont] at h
    by_cases hc : c = '$' ∨ c = '\u200C' ∨ c = '\u200D' ∨ idCont c = true
    · rw [if_pos hc] at h
      cases h
      exact ⟨rfl, by simp⟩
    · rw [if_neg hc] at h
      exact matchUEscape_decomp h

/-- The greedy `(...)*` loop over identifier continuation units.  `fuel`
bounds the number of iterations; every unit consumes at least one character,
so `fuel = cs.length` (as used by `matchIdentCont`) never runs out early. -/
def matchIdentContGo (idCont : Char → Bool) : Nat → List Char → List Char × List Char
  | 0, cs => ([], cs)
  | fuel+1, cs =>
    match matchIdentUnitCont idCont cs with
    | some (u, rest) =>
      let p := matchIdentContGo idCont fuel rest
      (u ++ p.1, p.2)
    | none => ([], cs)

/-- Greedily match identifier continuation units; returns the matched
characters and the remainder. -/
def matchIdentCont (idCont : Char → Bool) (cs : List Char) : List Char × List Char :=
  matchIdentContGo idCont cs.length cs

theorem matchIdentContGo_append (idCont : Char → Bool) :
    ∀ fuel (cs : List Char),
      (matchIdentContGo idCont fuel cs).1 ++ (matchIdentContGo idCont fuel cs).2 = cs := by
  intro fuel
  induction fuel with
  | zero => intro cs; rfl
  | succ n ih =>
    intro cs
    rcases hm : matchIdentUnitCont idCont cs with _ | ⟨u, rest⟩
    · simp [matchIdentContGo, hm]
    · obtain ⟨hd1, _⟩ := matchIdentUnitCont_decomp hm
      have hstep : matchIdentContGo idCont (n+1) cs =
          (u ++ (matchIdentContGo idCont n rest).1, (matchIdentContGo idCont n rest).2) := by
        simp [matchIdentContGo, hm]
      rw [hstep]
      show u ++ (matchIdentContGo idCont n rest).1 ++ (matchIdentContGo idCont n rest).2 = cs
      rw [List.append_assoc, ih rest]
      exact hd1.symm

theorem matchIdentCont_append (idCont : Char → Bool) (cs : List Char) :
    (matchIdentCont idCont cs).1 ++ (matchIdentCont idCont cs).2 = cs :=
  matchIdentContGo_append idCont cs.length cs

/-- The ordered keyword alternation `(var|let|const)` at the head of the
input. -/
def matchKeyword : List Char → Option (String × List Char)
  | 'v' :: 'a' :: 'r' :: rest => some ("var", rest)
  | 'l' :: 'e' :: 't' :: rest => some ("let", rest)
  | 'c' :: 'o' :: 'n' :: 's' :: 't' :: rest => some ("const", rest)
  | _ => none

theorem matchKeyword_decomp {cs kw rest} (h : matchKeyword cs = some (kw, rest)) :
    cs = kw.data ++ rest ∧ (kw = "var" ∨ kw = "let" ∨ kw = "const") := by
  unfold matchKeyword at h
  split at h
  · cases h
    exact ⟨rfl, Or.inl rfl⟩
  · cases h
    exact ⟨rfl, Or.inr (Or.inl rfl)⟩
  · cases h
    exact ⟨rfl, Or.inr (Or.inr rfl)⟩
  · exact absurd h (by simp)

/-- One attempted match of `JSVarDeclRegex` at the head of the input:
keyword, then `\s+` (greedy, at least one), then the identifier.  Returns
the keyword, the matched identifier text (escapes kept verbatim, as the
source's replacement callback receives them) and the remainder after the
whole match. -/
def matchDeclAt (idStart idCont isWs : Char → Bool) (cs : List Char) :
    Option (String × String × List Char) :=
  match matchKeyword cs with
  | none => none
  | some (kw, r1) =>
    if (r1.takeWhile isWs).isEmpty then none
    else
      match matchIdentUnitStart idStart (r1.dropWhile isWs) with
      | none => none
      | some (u0, r3) =>
        let p := matchIdentCont idCont r3
        some (kw, String.mk (u0 ++ p.1), p.2)

theorem matchDeclAt_decomp {idStart idCont isWs : Char → Bool} {cs : List Char}
    {kw name : String} {rest : List Char}
    (h : matchDeclAt idStart idCont isWs cs = some (kw, name, rest)) :
    ∃ ws, cs = kw.data ++ ws ++ name.data ++ rest ∧ ws ≠ [] ∧
      (∀ ch ∈ ws, isWs ch = true) ∧ (kw = "var" ∨ kw = "let" ∨ kw = "const") := by
  rcases hkw : matchKeyword cs with _ | ⟨kw', r1⟩ <;> simp only [matchDeclAt, hkw] at h
  · exact absurd h (by simp)
  · by_cases hemp : (r1.takeWhile isWs).isEmpty
    · rw [if_pos hemp] at h
      exact absurd h (by simp)
    · rw [if_neg hemp] at h
      rcases hst : matchIdentUnitStart idStart (r1.dropWhile isWs) with _ | ⟨u0, r3⟩ <;>
        simp only [hst] at h
      · exact absurd h (by simp)
      · simp only [Option.some.injEq, Prod.mk.injEq] at h
        obtain ⟨hkweq, hname, hrest⟩ := h
        subst hkweq
        subst hname
        subst hrest
        obtain ⟨hcs1, hkwmem⟩ := matchKeyword_decomp hkw
        obtain ⟨hcs2, _⟩ := matchIdentUnitStart_decomp hst
        have hcont := matchIdentCont_append idCont r3
        set ws := r1.takeWhile isWs with hwsdef
        set dw := r1.dropWhile isWs with hdwdef
        set ps := matchIdentCont idCont r3 with hpsdef
        have hsplit : ws ++ dw = r1 := List.takeWhile_append_dropWhile isWs r1
        refine ⟨ws, ?_, ?_, ?_, hkwmem⟩
        · rw [hcs1, ← hsplit, hcs2, ← hcont]
          simp [List.append_assoc]
        · intro hempty
          rw [hempty] at hemp
          simp at hemp
        · intro ch hch
          exact List.mem_takeWhile_imp hch

theorem matchDeclAt_length {idStart idCont isWs : Char → Bool} {cs : List Char}
    {kw name : String} {rest : List Char}
    (h : matchDeclAt idStart idCont isWs cs = some (kw, name, rest)) :
    rest.length < cs.length := by
  obtain ⟨ws, hcs, hws, _, _⟩ := matchDeclAt_decomp h
  rw [hcs]
  have : 0 < ws.length := List.length_pos.mpr hws
  simp [List.length_append]
  omega

/-- The `String.prototype.replaceAll` scan over `JSVarDeclRegex` with the
source's replacement callback (src/repl.ts lines 439-443): at each position
try a match; on a match append the hoisted re-declaration (`const` hoisted
as `let`, other keywords kept) and replace the match by the bare identifier;
otherwise keep the character.  Returns `(hoisted, transformed)`.  `fuel`
bounds the number of scan steps; every step consumes at least one character,
so `fuel = cs.length` (as used by `scanReplace`) never runs out early. -/
def scanReplaceGo (idStart idCont isWs : Char → Bool) : Nat → List Char → String × String
  | 0, cs => ("", String.mk cs)
  | _+1, [] => ("", "")
  | fuel+1, c :: tail =>
    match matchDeclAt idStart idCont isWs (c :: tail) with
    | some (kw, name, rest) =>
      let p := scanReplaceGo idStart idCont isWs fuel rest
      ((if kw = "const" then "let" else kw) ++ " " ++ name ++ ";" ++ p.1, name ++ p.2)
    | none =>
      let p := scanReplaceGo idStart idCont isWs fuel tail
      (p.1, String.mk [c] ++ p.2)

/-- The full `replaceAll` pass: hoisted declarations and transformed text. -/
def scanReplace (idStart idCont isWs : Char → Bool) (cs : List Char) : String × String :=
  scanReplaceGo idStart idCont isWs cs.length cs

theorem scanReplaceGo_fuel_irrel (idStart idCont isWs : Char → Bool) :
    ∀ n fuel (cs : List Char), cs.length ≤ n → cs.length ≤ fuel →
      scanReplaceGo idStart idCont isWs fuel cs = scanReplace idStart idCont isWs cs := by
  intro n
  induction n with
  | zero =>
    intro fuel cs hn _
    have hnil : cs = [] := List.eq_nil_of_length_eq_zero (Nat.le_zero.mp hn)
    subst hnil
    cases fuel with
    | zero => rfl
    | succ f => rfl
  | succ n ih =>
    intro fuel cs hn hf
    cases cs with
    | nil =>
      cases fuel with
      | zero => rfl
      | succ f => rfl
    | cons c tail =>
      cases fuel with
      | zero => simp at hf
      | succ f =>
        have hn' : tail.length ≤ n := by simp only [List.length_cons] at hn; omega
        have hf' : tail.length ≤ f := by simp only [List.length_cons] at hf; omega
        rcases hm : matchDeclAt idStart idCont isWs (c :: tail) with _ | ⟨kw, name, rest⟩
        · simp only [scanReplace, List.length_cons, scanReplaceGo, hm]
          rw [ih f tail hn' hf']
          rfl
        · have hlen := matchDeclAt_length hm
          have hrt : rest.length ≤ tail.length := by
            simp only [List.length_cons] at hlen
            omega
          simp only [scanReplace, List.length_cons, scanReplaceGo, hm]
          rw [ih f rest (by omega) (by omega), ih tail.length rest (by omega) hrt]

/-- On a match, `scanReplace` emits the hoisted re-declaration (with `const`
replaced by `let`) and substitutes the bare identifier into the body. -/
theorem scanReplace_match_step (idStart idCont isWs : Char → Bool) (cs : List Char)
    (kw name : String) (rest : List Char)
    (h : matchDeclAt idStart idCont isWs cs = some (kw, name, rest)) :
    scanReplace idStart idCont isWs cs =
      ((if kw = "const" then "let" else kw) ++ " " ++ name ++ ";" ++
        (scanReplace idStart idCont isWs rest).1,
       name ++ (scanReplace idStart idCont isWs rest).2) := by
  have hlen := matchDeclAt_length h
  cases cs with
  | nil => simp at hlen
  | cons c tail =>
    have hrt : rest.length ≤ tail.length := by
      simp only [List.length_cons] at hlen
      omega
    show scanReplaceGo idStart idCont isWs (c :: tail).length (c :: tail) = _
    simp only [List.length_cons, scanReplaceGo, h]
    rw [scanReplaceGo_fuel_irrel idStart idCont isWs rest.length tail.length rest
      (le_refl _) hrt]

/-- The `StringTrim` blank-line test (JS `String.prototype.trim`), written
over the character list so that concrete instances evaluate in the kernel. -/
def jsTrim (s : String) : String :=
  String.mk ((s.data.dropWhile Char.isWhitespace).reverse.dropWhile Char.isWhitespace).reverse

/-- `lines[0] = f(lines[0])` on a JS array. -/
def mapFirst (f : String → String) : List String → List String
  | [] => []
  | l :: ls => f l :: ls

/-- `lines[lines.length - 1] = f(lines[lines.length - 1])` on a nonempty JS
array. -/
def mapLast (f : String → String) : List String → List String
  | [] => []
  | [l] => [f l]
  | l :: ls => l :: mapLast f ls

theorem mapLast_append_singleton (f : String → String) (init : List String) (last : String) :
    mapLast f (init ++ [last]) = init ++ [f last] := by
  induction init with
  | nil => rfl
  | cons a tail ih =>
    cases tail with
    | nil => rfl
    | cons b tail2 => exact congrArg (List.cons a) ih

/-- Lines 436-437 of src/repl.ts: suffix the last line with
`'return ' + line + ';})();'` and then prefix the first line with
`'(async()=>{'` (for a single line both hit the same element, last first). -/
def wrapLines (ls : List String) : List String :=
  mapFirst (fun l => "(async()=>\x7b" ++ l)
    (mapLast (fun l => "return " ++ l ++ ";\x7d)();") ls)

/-- Split a character list at every occurrence of `sep`, keeping empty
segments (the semantics of the host `String.prototype.split` with a
one-character separator; the result is always nonempty). -/
def splitOnChar (sep : Char) : List Char → List (List Char)
  | [] => [[]]
  | c :: rest =>
    let r := splitOnChar sep rest
    if c = sep then [] :: r
    else
      match r with
      | [] => [[c]]
      | g :: gs => (c :: g) :: gs

/-- `StringPrototypeSplit(src, '\n')` (src/repl.ts line 434). -/
def jsSplitNewline (s : String) : List String :=
  (splitOnChar '\n' s.data).map String.mk

/-- Lines 434-435 of src/repl.ts: split into lines and pop one trailing
wholly-blank line. -/
def effectiveLines (src : String) : List String :=
  let lines := jsSplitNewline src
  if jsTrim ((lines.getLast?).getD "") = "" then lines.dropLast else lines

/-- `tryProcessTopLevelAwait` (src/repl.ts lines 433-445), parameterized by
the regex character classes.  The empty-`effectiveLines` case reproduces the
JS behavior on a single blank line (indexing an empty array yields
`undefined`, so the joined text becomes `(async()=>{undefined`); the source
only reaches this function for fragments containing `await`, which are never
blank. -/
def tryProcessTopLevelAwait (idStart idCont isWs : Char → Bool) (src : String) : String :=
  match effectiveLines src with
  | [] =>
    let p := scanReplace idStart idCont isWs ("(async()=>\x7bundefined").data
    p.1 ++ p.2
  | l :: ls =>
    let p := scanReplace idStart idCont isWs
      (String.intercalate "\n" (wrapLines (l :: ls))).data
    p.1 ++ p.2

/-- `\p{ID_Start}` restricted to the ASCII range, used to instantiate the
parameterized matcher at concrete inputs. -/
def asciiIDStart (c : Char) : Bool := c.isAlpha

/-- `\p{ID_Continue}` restricted to the ASCII range. -/
def asciiIDCont (c : Char) : Bool := c.isAlpha || c.isDigit || c = '_'

/-- The regex `\s` class (JS whitespace). -/
def jsWs (c : Char) : Bool := c.isWhitespace

/-- C6 counterexample: the claim says the last line is wrapped as
`return (<original-last-line>);` — with parentheses around the original
line.  The source concatenates `'return ' + line + ';})();'` with no
parentheses: on `"await f()"` the transform yields
`(async()=>{return await f();})();`, not
`(async()=>{return (await f());})();`. -/
theorem tla_no_parens_cex :
    tryProcessTopLevelAwait asciiIDStart asciiIDCont jsWs "await f()" =
      "(async()=>\x7breturn await f();\x7d)();" ∧
    ¬ tryProcessTopLevelAwait asciiIDStart asciiIDCont jsWs "await f()" =
      "(async()=>\x7breturn (await f());\x7d)();" := by
  constructor
  · decide
  · decide

/-- C6 (amended): `tryProcessTopLevelAwait` returns the hoisted
re-declarations followed by the transformed body; the body is the line list
(after dropping one trailing wholly-blank line) with the first line prefixed
by the async-closure opener and the last line turned into
`return <original-last-line>;` followed by the closure's invocation (no
parentheses around the original line); and the `replaceAll` scan replaces
each matched `var|let|const <identifier>` declaration by the bare
identifier while emitting a hoisted re-declaration that uses `let` in place
of `const` and keeps the other keywords. -/
theorem tla_wrap_and_hoist (idStart idCont isWs : Char → Bool) (src : String)
    (hne : effectiveLines src ≠ []) :
    tryProcessTopLevelAwait idStart idCont isWs src =
      (scanReplace idStart idCont isWs
        (String.intercalate "\n" (wrapLines (effectiveLines src))).data).1 ++
      (scanReplace idStart idCont isWs
        (String.intercalate "\n" (wrapLines (effectiveLines src))).data).2 ∧
    (∀ l, effectiveLines src = [l] →
      wrapLines (effectiveLines src) =
        ["(async()=>\x7b" ++ ("return " ++ l ++ ";\x7d)();")]) ∧
    (∀ l mid last, effectiveLines src = l :: (mid ++ [last]) →
      wrapLines (effectiveLines src) =
        ("(async()=>\x7b" ++ l) :: (mid ++ ["return " ++ last ++ ";\x7d)();"])) ∧
    (∀ cs kw name rest, matchDeclAt idStart idCont isWs cs = some (kw, name, rest) →
      scanReplace idStart idCont isWs cs =
        ((if kw = "const" then "let" else kw) ++ " " ++ name ++ ";" ++
          (scanReplace idStart idCont isWs rest).1,
         name ++ (scanReplace idStart idCont isWs rest).2) ∧
      ∃ ws, cs = kw.data ++ ws ++ name.data ++ rest ∧ ws ≠ [] ∧
        (∀ ch ∈ ws, isWs ch = true) ∧ (kw = "var" ∨ kw = "let" ∨ kw = "const")) := by
  refine ⟨?_, ?_, ?_, ?_⟩
  · rcases hls : effectiveLines src with _ | ⟨l, ls⟩
    · exact absurd hls hne
    · simp [tryProcessTopLevelAwait, hls]
  · intro l hl
    rw [hl]
    rfl
  · intro l mid last hl
    rw [hl]
    show mapFirst _ (mapLast _ (l :: (mid ++ [last]))) = _
    have hcons : mapLast (fun x => "return " ++ x ++ ";\x7d)();") (l :: (mid ++ [last])) =
        l :: mapLast (fun x => "return " ++ x ++ ";\x7d)();") (mid ++ [last]) := by
      cases mid <;> rfl
    rw [hcons, mapLast_append_singleton]
    rfl
  · intro cs kw name rest hm
    exact ⟨scanReplace_match_step idStart idCont isWs cs kw name rest hm,
      matchDeclAt_decomp hm⟩

/-- C6 witness: `"const x = await f()"` — the `const x` declaration is
hoisted as `let x;` outside the closure, the body keeps a bare `x`, and the
wrapped last line reads `return x = await f();})();`. -/
theorem tla_wrap_and_hoist_witness :
    tryProcessTopLevelAwait asciiIDStart asciiIDCont jsWs "const x = await f()" =
      (scanReplace asciiIDStart asciiIDCont jsWs
        (String.intercalate "\n" (wrapLines (effectiveLines "const x = await f()"))).data).1 ++
      (scanReplace asciiIDStart asciiIDCont jsWs
        (String.intercalate "\n" (wrapLines (effectiveLines "const x = await f()"))).data).2 ∧
    tryProcessTopLevelAwait asciiIDStart asciiIDCont jsWs "const x = await f()" =
      "let x;(async()=>\x7breturn x = await f();\x7d)();" := by
  have h := tla_wrap_and_hoist asciiIDStart asciiIDCont jsWs "const x = await f()" (by decide)
  exact ⟨h.1, by decide⟩

end Tla

end BunRepl
